import Mathlib

/-!
Verification of the natural-language command/query layer of the user-record
management application.  The development shallowly embeds:

* the lexical filter extractor of src/lib/parseQueryToFilters.ts
  (function parseQueryToFilters and its helper fuzzyMatch),
* the entity-resolving tool handlers handleUpdate / handleDelete of
  src/app/api/ai/chat/route.ts,
* the streaming POST orchestration of src/app/api/ai/chat/route.ts.

JavaScript strings are modelled as Lean strings with the ASCII case mapping
of Char.toLower / Char.toUpper (the source only manipulates ASCII text).
Each regular expression of the source is embedded as an explicit
backtracking matcher over lists of characters, written pattern piece by
pattern piece next to a comment quoting the original regex.  The effectful
steps of the route handler (database, model calls, token stream) are
parameterised by oracles recording the outcome of every external call, and
the handler body is a pure function from those oracles to the list of
events written to the response channel.
-/

namespace UserMgmt

/-- JavaScript regex word character (the class underlying a word boundary):
ASCII letters, digits and the underscore. -/
def isWordChar (c : Char) : Bool :=
  (65 ≤ c.toNat && c.toNat ≤ 90) || (97 ≤ c.toNat && c.toNat ≤ 122) ||
  (48 ≤ c.toNat && c.toNat ≤ 57) || c = '_'

/-- Word-character test through an optional character; a missing neighbour
(start or end of the string) counts as a non-word character, as in the
JavaScript word-boundary rule. -/
def isWordO : Option Char → Bool
  | none => false
  | some c => isWordChar c

/-- JavaScript regex whitespace class (ASCII part). -/
def isSpaceChar (c : Char) : Bool :=
  c = ' ' || c = '\t' || c = '\n' || c = '\r' || c = '\x0b' || c = '\x0c'

/-- JavaScript regex digit class. -/
def isDigitChar (c : Char) : Bool :=
  48 ≤ c.toNat && c.toNat ≤ 57

/-- JavaScript String.prototype.toLowerCase restricted to ASCII input,
applied characterwise. -/
def lowerStr (s : String) : String :=
  ⟨s.data.map Char.toLower⟩

/-- The title-casing used by fuzzyMatch:
input.charAt(0).toUpperCase() + input.slice(1).toLowerCase(). -/
def capitalizeJs (s : String) : String :=
  match s.data with
  | [] => ""
  | c :: cs => ⟨Char.toUpper c :: cs.map Char.toLower⟩


/- The fuzzy vocabulary matcher.  The source delegates scoring to the
external Fuse.js library, which is not part of this repository.  Its
observable behaviour is therefore modelled from the spec. -/

/-- Levenshtein edit distance, written with an explicit fuel argument so
that it reduces structurally; the fuel is always sufficient because every
recursive call removes at least one character. -/
def levFuel : Nat → List Char → List Char → Nat
  | 0, _, _ => 0
  | _ + 1, [], ys => ys.length
  | _ + 1, x :: xs, [] => (x :: xs).length
  | f + 1, x :: xs, y :: ys =>
    if x = y then levFuel f xs ys
    else 1 + min (levFuel f (x :: xs) ys) (min (levFuel f xs (y :: ys)) (levFuel f xs ys))

/-- Levenshtein edit distance between two character lists. -/
def lev (xs ys : List Char) : Nat := levFuel (xs.length + ys.length) xs ys

/-- Modelled from the spec: the score Fuse.js assigns to a vocabulary entry
for a given search input.  The spec describes it as a normalized
edit-distance score computed case-insensitively; 0 is a perfect match and
larger scores are worse. -/
def fuseScore (input opt : String) : ℚ :=
  (lev (lowerStr input).data (lowerStr opt).data : ℚ) / ((max input.length opt.length : Nat) : ℚ)

/-- One step of the best-entry fold: a strictly better score replaces the
current best, so the earliest entry is kept on ties. -/
def fuseStep (input : String) (acc : Option (String × ℚ)) (opt : String) :
    Option (String × ℚ) :=
  match acc with
  | none => some (opt, fuseScore input opt)
  | some (b, sb) =>
    if fuseScore input opt < sb then some (opt, fuseScore input opt) else some (b, sb)

/-- Modelled from the spec: the best entry of a Fuse.js search, i.e. the
first element of fuse.search(input) together with its score.  The entry
with the smallest score wins and the earlier entry is kept on ties, which
matches the stable score-sorted result list the library returns. -/
def fuseBest (input : String) (options : List String) : Option (String × ℚ) :=
  options.foldl (fuseStep input) none

/-- Embedding of fuzzyMatch (src/lib/parseQueryToFilters.ts, lines 8-19):
empty input short-circuits to the empty string; an exact case-insensitive
vocabulary hit returns the vocabulary casing; otherwise the best fuzzy
score strictly below the threshold returns that entry; otherwise the
title-cased input itself is returned. -/
def fuzzyMatch (input : String) (options : List String) (threshold : ℚ) : String :=
  if input = "" then ""
  else
    match options.find? (fun opt => lowerStr opt == lowerStr input) with
    | some exact => exact
    | none =>
      match fuseBest input options with
      | some (item, score) => if score < threshold then item else capitalizeJs input
      | none => capitalizeJs input

/-- The filter object produced per turn.  Mirrors the FilterState interface
of the UsersFilter component (the Partial fields of the extractor's return
type); a missing field of the JavaScript object is a none. -/
structure FilterState where
  name : Option String := none
  email : Option String := none
  phone : Option String := none
  role : Option (List String) := none
  department : Option (List String) := none
  minAge : Option String := none
  maxAge : Option String := none
  sortBy : Option String := none
  sortOrder : Option String := none
deriving DecidableEq, Repr

/- Embedding machinery for the source's regular expressions.  A matcher at
a fixed position is a function from the remaining text to an optional
result; alternation and optional pieces backtrack exactly as the
JavaScript engine does (earlier alternative first, a greedy piece gives
characters back when the continuation fails), and a whole-string match
scans positions left to right. -/

/-- Case-insensitively consume a literal from the front of the text and
return the rest. -/
def dropCI : List Char → List Char → Option (List Char)
  | [], l => some l
  | _ :: _, [] => none
  | p :: ps, c :: cs => if p.toLower = c.toLower then dropCI ps cs else none

/-- Ordered choice. -/
def orE : Option α → Option α → Option α
  | some r, _ => some r
  | none, b => b

/-- A literal followed by a continuation. -/
def tryCI (lit : String) (k : List Char → Option α) (l : List Char) : Option α :=
  match dropCI lit.data l with
  | some rest => k rest
  | none => none

/-- Ordered alternation of plain literals, each followed by the
continuation (with backtracking to the next alternative). -/
def altCI : List String → (List Char → Option α) → List Char → Option α
  | [], _, _ => none
  | lit :: rest, k, l => orE (tryCI lit k l) (altCI rest k l)

/-- An optional literal, greedy with backtracking: the consuming branch is
tried first, then the empty branch. -/
def optCI (lit : String) (k : List Char → Option α) (l : List Char) : Option α :=
  orE (tryCI lit k l) (k l)

/-- An optional literal alternation, greedy with backtracking. -/
def optAltCI (lits : List String) (k : List Char → Option α) (l : List Char) : Option α :=
  orE (altCI lits k l) (k l)

/-- Greedy Kleene star over a character class with full backtracking: the
longest consumption is tried first, shorter ones on continuation failure. -/
def starBT (p : Char → Bool) (k : List Char → Option α) : List Char → Option α
  | [] => k []
  | c :: t =>
    match (if p c then starBT p k t else none : Option α) with
    | some r => some r
    | none => k (c :: t)

/-- Greedy one-or-more repetition over a character class. -/
def plusBT (p : Char → Bool) (k : List Char → Option α) : List Char → Option α
  | [] => none
  | c :: t => if p c then starBT p k t else none

/-- Scan for the leftmost position at which the positional matcher
succeeds (the semantics of a non-anchored RegExp match). -/
def scanL (f : List Char → Option α) : List Char → Option α
  | [] => f []
  | c :: t =>
    match f (c :: t) with
    | some r => some r
    | none => scanL f t

/-- Scan that also tracks the previous character, for matchers that test a
word boundary at their start position. -/
def scanPrev (f : Option Char → List Char → Option α) : Option Char → List Char → Option α
  | prev, [] => f prev []
  | prev, c :: t =>
    match f prev (c :: t) with
    | some r => some r
    | none => scanPrev f (some c) t

/-- Capture a maximal run of digits (the trailing capture group of the age
regexes, where nothing follows the group, so greedy maximal munch is
exact). -/
def digitsRun (l : List Char) : Option (String × List Char) :=
  let ds := l.takeWhile isDigitChar
  if ds.isEmpty then none else some (ds.asString, l.drop ds.length)

/- Age regexes (src/lib/parseQueryToFilters.ts lines 33-36), matched
against the lowercased query. -/

/-- Positional matcher for /max(?:imum)?\s*(?:age)?\s*(?:is|of|:)?\s*(\d+)/i. -/
def maxAgeAt (l : List Char) : Option String :=
  tryCI "max"
    (optCI "imum"
      (starBT isSpaceChar
        (optCI "age"
          (optAltCI ["is", "of", ":"]
            (starBT isSpaceChar
              (fun l6 => (digitsRun l6).map Prod.fst)))))) l

/-- Positional matcher for /min(?:imum)?\s*(?:age)?\s*(?:is|of|:)?\s*(\d+)/i. -/
def minAgeAt (l : List Char) : Option String :=
  tryCI "min"
    (optCI "imum"
      (starBT isSpaceChar
        (optCI "age"
          (optAltCI ["is", "of", ":"]
            (starBT isSpaceChar
              (fun l6 => (digitsRun l6).map Prod.fst)))))) l

/-- Positional matcher for /age\s*(?:is|of|:)?\s*(\d+)/i. -/
def ageAt (l : List Char) : Option String :=
  tryCI "age"
    (starBT isSpaceChar
      (optAltCI ["is", "of", ":"]
        (starBT isSpaceChar
          (fun l4 => (digitsRun l4).map Prod.fst)))) l

/-- Positional matcher for
/age\s*(?:between|from)?\s*(\d+)\s*(?:and|to|-)\s*(\d+)/i.  The two digit
captures use maximal munch, which is exact here: a digit can begin neither
a whitespace character nor one of the separators and-to-dash, so the
backtracking a JavaScript engine would attempt on the first group never
produces a different successful match. -/
def ageRangeAt (l : List Char) : Option (String × String) :=
  tryCI "age"
    (starBT isSpaceChar
      (optAltCI ["between", "from"]
        (starBT isSpaceChar
          (fun l4 =>
            (digitsRun l4).bind (fun p =>
              starBT isSpaceChar
                (altCI ["and", "to", "-"]
                  (starBT isSpaceChar
                    (fun l8 => (digitsRun l8).map (fun p2 => (p.1, p2.1))))) p.2))))) l

/-- The age portion of the extractor: the four regexes are tried in the
source's if/else-if order (max, range, min, bare age) and the first match
determines the (minAge, maxAge) pair. -/
def ageCascade (lq : List Char) : Option String × Option String :=
  match scanL maxAgeAt lq with
  | some m => (none, some m)
  | none =>
    match scanL ageRangeAt lq with
    | some p => (some p.1, some p.2)
    | none =>
      match scanL minAgeAt lq with
      | some m => (some m, none)
      | none =>
        match scanL ageAt lq with
        | some m => (some m, some m)
        | none => (none, none)

/- Role and department scanning (src/lib/parseQueryToFilters.ts lines
51-102).  A word alternative is matched with a word boundary on each side;
the boundary is evaluated against the actual neighbouring characters, as
the JavaScript \b assertion is. -/

/-- Does the word alternative match at the head of the text, with a word
boundary before (against the given previous character) and after? -/
def altWordOk (a : List Char) (prev : Option Char) (l : List Char) : Bool :=
  match a with
  | [] => false
  | ha :: ta =>
    match dropCI a l with
    | some rest =>
      (isWordO prev != isWordChar ha) &&
      (isWordChar ((ha :: ta).getLastD ha) != isWordO rest.head?)
    | none => false

/-- Case-insensitive test of an alternation of word-bounded alternatives
anywhere in the text: the embedding of a /\b(?:w1|w2|...)\b/i regex test. -/
def scanWord (alts : List (List Char)) : Option Char → List Char → Bool
  | _, [] => false
  | prev, c :: t =>
    alts.any (fun a => altWordOk a prev (c :: t)) || scanWord alts (some c) t

/-- JavaScript Set.prototype.add followed by Array.from: insertion order,
no duplicates. -/
def insertDedup (l : List String) (x : String) : List String :=
  if l.contains x then l else l ++ [x]

/-- The fixed table of common role synonyms with the alternatives of each
word-boundary regex expanded (an optional plural s produces both forms,
in the order the engine would try them). -/
def commonRolePatterns : List (String × List String) :=
  [ ("Developer", ["developers", "developer", "devs", "dev"]),
    ("Manager", ["managers", "manager", "leads", "lead"]),
    ("Designer", ["designers", "designer", "ux", "ui"]),
    ("Engineer", ["engineers", "engineer", "eng"]),
    ("Admin", ["admins", "admin", "administrators", "administrator"]),
    ("Analyst", ["analysts", "analyst"]),
    ("Director", ["directors", "director", "vp", "head"]),
    ("Owner", ["owners", "owner", "founders", "founder", "ceo"]) ]

/-- Pass 1 of role extraction: each common-role pattern that tests true
against the raw query adds fuzzyMatch(keyword, existingRoles) to the role
set (falling back to the keyword itself when the match is empty, the
JavaScript match-or-keyword expression). -/
def roleCommonPass (q : List Char) (existingRoles : List String) (acc : List String) :
    List String :=
  commonRolePatterns.foldl
    (fun acc item =>
      if scanWord (item.2.map String.data) none q then
        insertDedup acc
          (let m := fuzzyMatch item.1 existingRoles (2 / 5)
           if m = "" then item.1 else m)
      else acc)
    acc

/-- The dynamic word-boundary test for one vocabulary value: the embedding
of new RegExp("\\b" + escaped + "(?:s|es)?\\b", "i").test(query).  The
escaping makes the value a literal, so the alternatives are the value
itself and its two naive plural forms. -/
def vocabWordTest (v : String) (q : List Char) : Bool :=
  scanWord [v.data, v.data ++ ['s'], v.data ++ ['e', 's']] none q

/-- Pass 2 of role extraction (and the department pass): every non-empty
vocabulary value whose word-boundary pattern tests true against the raw
query is added to the set. -/
def vocabDynPass (q : List Char) (vocab : List String) (acc : List String) : List String :=
  vocab.foldl
    (fun acc v =>
      if v = "" then acc
      else if vocabWordTest v q then insertDedup acc v else acc)
    acc

/-- The role set of a query, in insertion order (common pass then dynamic
pass). -/
def roleSetOf (q : List Char) (existingRoles : List String) : List String :=
  vocabDynPass q existingRoles (roleCommonPass q existingRoles [])

/-- The department set of a query (dynamic pass only). -/
def deptSetOf (q : List Char) (existingDepartments : List String) : List String :=
  vocabDynPass q existingDepartments []

/- Phone extraction (src/lib/parseQueryToFilters.ts lines 104-134). -/

/-- The phone capture class [+\d\s\-()]. -/
def phoneCls (c : Char) : Bool :=
  c = '+' || isDigitChar c || isSpaceChar c || c = '-' || c = '(' || c = ')'

/-- The trailing capture group ([+\d\s\-()]+); nothing follows it in any of
the phone regexes, so the greedy maximal run is the capture. -/
def phoneCap (l : List Char) : Option String :=
  let run := l.takeWhile phoneCls
  if run.isEmpty then none else some run.asString

/-- Positional matcher for phone pattern 1:
/(?:phone|number|mobile|cell)\s*(?:number|is|:)?\s*([+\d\s\-()]+)/i. -/
def phone1At (l : List Char) : Option String :=
  altCI ["phone", "number", "mobile", "cell"]
    (starBT isSpaceChar
      (optAltCI ["number", "is", ":"]
        (starBT isSpaceChar phoneCap))) l

/-- Positional matcher for phone pattern 2:
/(?:with\s+phone|phone\s+starts?\s+with|phone\s+number|phone\s+contains?|phone\s+has)\s+([+\d\s\-()]+)/i. -/
def phone2At (l : List Char) : Option String :=
  let k := plusBT isSpaceChar phoneCap
  orE (tryCI "with" (plusBT isSpaceChar (tryCI "phone" k)) l)
    (orE (tryCI "phone" (plusBT isSpaceChar (tryCI "start" (optCI "s" (plusBT isSpaceChar (tryCI "with" k))))) l)
      (orE (tryCI "phone" (plusBT isSpaceChar (tryCI "number" k)) l)
        (orE (tryCI "phone" (plusBT isSpaceChar (tryCI "contain" (optCI "s" k))) l)
          (tryCI "phone" (plusBT isSpaceChar (tryCI "has" k)) l))))

/-- The leading verb alternation (?:filter|find|show|get|list|search). -/
def filterLeads : List String := ["filter", "find", "show", "get", "list", "search"]

/-- The optional group (?:users?\s+)?. -/
def optUsersGrp (k : List Char → Option α) (l : List Char) : Option α :=
  orE (tryCI "user" (optCI "s" (plusBT isSpaceChar k)) l) (k l)

/-- Positional matcher for phone pattern 3:
/(?:filter|find|show|get|list|search)\s+(?:users?\s+)?(?:with\s+)?phone\s+([+\d\s\-()]+)/i. -/
def phone3At (l : List Char) : Option String :=
  altCI filterLeads
    (plusBT isSpaceChar
      (optUsersGrp
        (fun l2 =>
          orE (tryCI "with" (plusBT isSpaceChar (tryCI "phone" (plusBT isSpaceChar phoneCap))) l2)
            (tryCI "phone" (plusBT isSpaceChar phoneCap) l2)))) l

/-- Positional matcher for phone pattern 4:
/(?:filter|find|show|get|list|search)\s+(?:users?\s+)?phone\s+(?:starts?\s+with|contains?|is|:)\s*([+\d\s\-()]+)/i. -/
def phone4At (l : List Char) : Option String :=
  let k := starBT isSpaceChar phoneCap
  altCI filterLeads
    (plusBT isSpaceChar
      (optUsersGrp
        (tryCI "phone"
          (plusBT isSpaceChar
            (fun l3 =>
              orE (tryCI "start" (optCI "s" (plusBT isSpaceChar (tryCI "with" k))) l3)
                (orE (tryCI "contain" (optCI "s" k) l3)
                  (orE (tryCI "is" k l3) (tryCI ":" k l3)))))))) l

/-- Positional matcher for phone pattern 5:
/(?:filter|phone)\s+(?:with|is|:)?\s*([+\d\s\-()]+)/i. -/
def phone5At (l : List Char) : Option String :=
  altCI ["filter", "phone"]
    (plusBT isSpaceChar
      (optAltCI ["with", "is", ":"]
        (starBT isSpaceChar phoneCap))) l

/-- The loop over the five phone patterns: the first whose capture, with
whitespace removed, still has at least three characters sets the phone
filter; a shorter capture does not stop the loop. -/
def phoneFromPatterns (q : List Char) : List (List Char → Option String) → Option String
  | [] => none
  | pat :: rest =>
    match scanL pat q with
    | some cap =>
      let cleaned := cap.data.filter (fun c => !isSpaceChar c)
      if 3 ≤ cleaned.length then some cleaned.asString else phoneFromPatterns q rest
    | none => phoneFromPatterns q rest

/-- Positional matcher for the standalone phone fallback /\b(\+?\d{5,})\b/:
a word boundary, an optional plus sign, five or more digits (maximal,
since giving digits back cannot re-establish the trailing boundary), and a
word boundary. -/
def stdPhoneAt (prev : Option Char) (l : List Char) : Option String :=
  match l with
  | [] => none
  | '+' :: t =>
    if isWordO prev != isWordChar '+' then
      let ds := t.takeWhile isDigitChar
      if 5 ≤ ds.length && !isWordO (t.drop ds.length).head? then
        some ('+' :: ds).asString
      else none
    else none
  | c :: t =>
    if isDigitChar c && (isWordO prev != isWordChar c) then
      let ds := (c :: t).takeWhile isDigitChar
      if 5 ≤ ds.length && !isWordO ((c :: t).drop ds.length).head? then
        some ds.asString
      else none
    else none

/-- Case-sensitive substring containment (String.prototype.includes). -/
def containsSub (nd : List Char) : List Char → Bool
  | [] => nd.isEmpty
  | c :: t => nd.isPrefixOf (c :: t) || containsSub nd t

/-- The phone-context test of the standalone fallback:
/(?:phone|number|mobile|cell|filter|880|8801|88015)/i.test(query). -/
def phoneContext (q : List Char) : Bool :=
  let lq := q.map Char.toLower
  ["phone", "number", "mobile", "cell", "filter", "880", "8801", "88015"].any
    (fun w => containsSub w.data lq)

/-- The whole phone stage: the five explicit patterns, then the standalone
long-digit fallback guarded by the phone-context test. -/
def phoneStage (q : List Char) : Option String :=
  match phoneFromPatterns q [phone1At, phone2At, phone3At, phone4At, phone5At] with
  | some p => some p
  | none =>
    match scanPrev stdPhoneAt none q with
    | some cap =>
      if phoneContext q then some (cap.data.filter (fun c => !isSpaceChar c)).asString
      else none
    | none => none

/- Name and email extraction (src/lib/parseQueryToFilters.ts lines
142-182). -/

/-- The terminator group of the search captures,
(?:\s+with|\s+in|\s+that|$): either end of string, or one-or-more
whitespace followed by one of the three literals (maximal munch on the
whitespace is exact because none of the literals begins with whitespace). -/
def searchTermOk (l : List Char) : Bool :=
  l.isEmpty ||
    (let sp := l.takeWhile isSpaceChar
     !sp.isEmpty &&
       ["with", "in", "that"].any (fun w => (dropCI w.data (l.drop sp.length)).isSome))

/-- The lazy capture (.+?) followed by the terminator group: characters
(anything but a line terminator, the JavaScript dot) are consumed one at a
time and the shortest non-empty capture whose remainder satisfies the
terminator wins. -/
def lazyCapGo : List Char → List Char → Option (List Char)
  | acc, [] => if acc.isEmpty then none else some acc.reverse
  | acc, c :: t =>
    if !acc.isEmpty && searchTermOk (c :: t) then some acc.reverse
    else if c = '\n' || c = '\r' || c = '\u2028' || c = '\u2029' then none
    else lazyCapGo (c :: acc) t

/-- The lazy capture starting at the current position. -/
def lazyCap (l : List Char) : Option String :=
  (lazyCapGo [] l).map List.asString

/-- The leading verb alternation of the search patterns,
(?:find|show|get|list|search). -/
def searchLeads : List String := ["find", "show", "get", "list", "search"]

/-- Positional matcher for search pattern 1:
/(?:find|show|get|list|search)\s+(?:users?\s+)?(?:named|with\s+name|called)\s+(.+?)(?:\s+with|\s+in|\s+that|$)/i. -/
def search1At (l : List Char) : Option String :=
  let k := plusBT isSpaceChar lazyCap
  altCI searchLeads
    (plusBT isSpaceChar
      (optUsersGrp
        (fun l2 =>
          orE (tryCI "named" k l2)
            (orE (tryCI "with" (plusBT isSpaceChar (tryCI "name" k)) l2)
              (tryCI "called" k l2))))) l

/-- Positional matcher for search pattern 2:
/(?:find|show|get|list|search)\s+(?:users?\s+)?(?:with\s+email|email)\s+(.+?)(?:\s+with|\s+in|\s+that|$)/i. -/
def search2At (l : List Char) : Option String :=
  let k := plusBT isSpaceChar lazyCap
  altCI searchLeads
    (plusBT isSpaceChar
      (optUsersGrp
        (fun l2 =>
          orE (tryCI "with" (plusBT isSpaceChar (tryCI "email" k)) l2)
            (tryCI "email" k l2)))) l

/-- The negative lookahead of search pattern 3,
(?!that\b|who\b|whose\b|where\b|roles?\b|departments?\b). -/
def lookBlocked (l : List Char) : Bool :=
  ["that", "who", "whose", "where", "role", "roles", "department", "departments"].any
    (fun w =>
      match dropCI w.data l with
      | some rest => !isWordO rest.head?
      | none => false)

/-- Positional matcher for search pattern 3:
/(?:find|show|get|list|search)\s+(?:users?\s+)?(?!that\b|who\b|whose\b|where\b|roles?\b|departments?\b)(.+?)(?:\s+with|\s+in|\s+that|$)/i. -/
def search3At (l : List Char) : Option String :=
  altCI searchLeads
    (plusBT isSpaceChar
      (optUsersGrp
        (fun l2 => if lookBlocked l2 then none else lazyCap l2))) l

/-- JavaScript String.prototype.trim on a character list. -/
def trimJs (l : List Char) : List Char :=
  ((l.dropWhile isSpaceChar).reverse.dropWhile isSpaceChar).reverse

/-- The cleanup term.replace of one trailing dot, comma or semicolon. -/
def stripTrailingPunct (l : List Char) : List Char :=
  match l.getLast? with
  | some c => if c = '.' || c = ',' || c = ';' then l.dropLast else l
  | none => l

/-- The filter-description word test applied to a generic-pattern capture:
/\b(?:roles?|departments?|depts?|job|position|is|are|and|or|that|which|whose|where|users?)\b/i. -/
def filterDescTest (l : List Char) : Bool :=
  scanWord
    (["roles", "role", "departments", "department", "depts", "dept", "job",
      "position", "is", "are", "and", "or", "that", "which", "whose", "where",
      "users", "user"].map String.data)
    none l

/-- The body run for a successful search-pattern capture: trim, strip one
trailing punctuation mark, skip role/department echoes, classify an
at-sign term as an email, and for the generic third pattern apply the two
guards that skip the capture (any other filter already matched, or the
capture is structural filter text).  The email component of the returned
pair is the filters.email assignment, the name component filters.name.
filters.email is necessarily still unset when the guard of the generic
pattern reads it, since the email branch of an earlier pattern always
leaves the loop. -/
def searchHandle (roleL deptL : List String) (phone : Option String) (generic : Bool)
    (cap : String) : Option String × Option String :=
  let clean := (stripTrailingPunct (trimJs cap.data)).asString
  let isRole := roleL.any (fun r => lowerStr r == lowerStr clean)
  let isDept := deptL.any (fun d => lowerStr d == lowerStr clean)
  if isRole || isDept then (none, none)
  else if clean.data.contains '@' then (some clean, none)
  else if generic then
    if !roleL.isEmpty || !deptL.isEmpty || phone.isSome then (none, none)
    else if filterDescTest clean.data then (none, none)
    else (none, some clean)
  else (none, some clean)

/-- The loop over the three search patterns (the continue taken for a
guarded generic capture reaches the end of the list, so it yields no
assignment). -/
def searchStage (q : List Char) (roleL deptL : List String) (phone : Option String) :
    Option String × Option String :=
  match scanL search1At q with
  | some cap => searchHandle roleL deptL phone false cap
  | none =>
    match scanL search2At q with
    | some cap => searchHandle roleL deptL phone false cap
    | none =>
      match scanL search3At q with
      | some cap => searchHandle roleL deptL phone true cap
      | none => (none, none)

/- Sort extraction (src/lib/parseQueryToFilters.ts lines 184-221), matched
against the lowercased query. -/

/-- The class [a-z] (the query is already lowercased when the sort
patterns run). -/
def lowerAlphaChar (c : Char) : Bool :=
  97 ≤ c.toNat && c.toNat ≤ 122

/-- The common tail ([a-z]+)\s*(asc|desc|ascending|descending)? of both
sort regexes.  The field capture is the maximal letter run (exact, since
the rest of the pattern is satisfiable with the empty order group at every
point, so the greedy run is never given back); the order group takes the
first alternative that is a prefix of the remaining text, so the asc and
desc alternatives shadow their longer forms exactly as in the engine. -/
def sortTailAt (l : List Char) : Option (String × Option String) :=
  let f := l.takeWhile lowerAlphaChar
  if f.isEmpty then none
  else
    let rest := (l.drop f.length).dropWhile isSpaceChar
    let ord :=
      if (dropCI "asc".data rest).isSome then some "asc"
      else if (dropCI "desc".data rest).isSome then some "desc"
      else if (dropCI "ascending".data rest).isSome then some "ascending"
      else if (dropCI "descending".data rest).isSome then some "descending"
      else none
    some (f.asString, ord)

/-- The alternation (?:by|according\s+to|with) followed by a continuation. -/
def byAccTo (k : List Char → Option α) (l : List Char) : Option α :=
  orE (tryCI "by" k l)
    (orE (tryCI "according" (plusBT isSpaceChar (tryCI "to" k)) l)
      (tryCI "with" k l))

/-- Positional matcher for sort pattern 1:
/(?:sort|order|arrange)\s+(?:by|according\s+to|with)\s+([a-z]+)\s*(asc|desc|ascending|descending)?/i. -/
def sort1At (l : List Char) : Option (String × Option String) :=
  altCI ["sort", "order", "arrange"]
    (plusBT isSpaceChar (byAccTo (plusBT isSpaceChar sortTailAt))) l

/-- Positional matcher for sort pattern 2:
/(?:show|list)\s+users?\s+(?:sorted|ordered)\s+(?:by|according\s+to|with)\s+([a-z]+)\s*(asc|desc|ascending|descending)?/i. -/
def sort2At (l : List Char) : Option (String × Option String) :=
  altCI ["show", "list"]
    (plusBT isSpaceChar
      (tryCI "user"
        (optCI "s"
          (plusBT isSpaceChar
            (fun l2 =>
              orE (tryCI "sorted" (plusBT isSpaceChar (byAccTo (plusBT isSpaceChar sortTailAt))) l2)
                (tryCI "ordered" (plusBT isSpaceChar (byAccTo (plusBT isSpaceChar sortTailAt))) l2)))))) l

/-- The valid sort fields; note that the literal createdAt can never equal
a captured field, which the [a-z]+ class keeps lowercase. -/
def validSortFields : List String :=
  ["name", "email", "age", "role", "department", "createdAt"]

/-- Validation and direction resolution for one sort-pattern match: an
invalid field leaves the loop running (no break in the source), a valid
one resolves the direction from the captured order word or the per-field
default. -/
def sortFromMatch (p : String × Option String) : Option (String × String) :=
  if validSortFields.contains p.1 then
    some (p.1,
      match p.2 with
      | some ord => if "desc".data.isPrefixOf (lowerStr ord).data then "desc" else "asc"
      | none => if p.1 = "createdAt" || p.1 = "age" then "desc" else "asc")
  else none

/-- The whole sort stage: both explicit patterns in order, then the
keyword shortcuts newest/latest, oldest, youngest. -/
def sortStage (lq : List Char) : Option String × Option String :=
  let viaPatterns : Option (String × String) :=
    match scanL sort1At lq with
    | some p =>
      match sortFromMatch p with
      | some r => some r
      | none =>
        match scanL sort2At lq with
        | some p2 => sortFromMatch p2
        | none => none
    | none =>
      match scanL sort2At lq with
      | some p2 => sortFromMatch p2
      | none => none
  match viaPatterns with
  | some r => (some r.1, some r.2)
  | none =>
    if containsSub "newest".data lq || containsSub "latest".data lq then
      (some "createdAt", some "desc")
    else if containsSub "oldest".data lq then (some "createdAt", some "asc")
    else if containsSub "youngest".data lq then (some "age", some "asc")
    else (none, none)

/-- Embedding of parseQueryToFilters (src/lib/parseQueryToFilters.ts lines
21-224): the age cascade, role/department set scanning, phone patterns,
name/email search patterns and sort patterns, assembled into the partial
filter object the source returns. -/
def parseQueryToFilters (query : String) (existingRoles : List String)
    (existingDepartments : List String) : FilterState :=
  let q := query.data
  let lq := q.map Char.toLower
  let ages := ageCascade lq
  let roleL := roleSetOf q existingRoles
  let deptL := deptSetOf q existingDepartments
  let phone := phoneStage q
  let en := searchStage q roleL deptL phone
  let srt := sortStage lq
  { name := en.2
    email := en.1
    phone := phone
    role := if roleL.isEmpty then none else some roleL
    department := if deptL.isEmpty then none else some deptL
    minAge := ages.1
    maxAge := ages.2
    sortBy := srt.1
    sortOrder := srt.2 }

/- The record store and the tool handlers of src/app/api/ai/chat/route.ts
(lines 128-169). -/

/-- A stored user record; the numeric identifier stands for the Mongo
object id. -/
structure UserRec where
  id : Nat
  name : String
  email : String
  phone : Option String := none
  age : Option Nat := none
  address : Option String := none
  role : Option String := none
  department : Option String := none
deriving DecidableEq, Repr

/-- The partial updates object of the update_user tool. -/
structure UserUpdates where
  name : Option String := none
  email : Option String := none
  phone : Option String := none
  age : Option Nat := none
  address : Option String := none
  role : Option String := none
  department : Option String := none
deriving DecidableEq, Repr

/-- A provided field overrides, a missing one keeps the stored value. -/
def updField : Option α → Option α → Option α
  | some v, _ => some v
  | none, old => old

/-- findByIdAndUpdate applied to one record. -/
def applyUpdates (u : UserRec) (up : UserUpdates) : UserRec :=
  { u with
    name := (updField up.name (some u.name)).getD u.name
    email := (updField up.email (some u.email)).getD u.email
    phone := updField up.phone u.phone
    age := updField up.age u.age
    address := updField up.address u.address
    role := updField up.role u.role
    department := updField up.department u.department }

/-- The structured outcome of one tool execution, mirroring the branch
structure of the handlers (the strings the source renders carry exactly
the data of the constructor: the subject name, the echoed query, or the
full candidate list). -/
inductive ToolOutcome
  | success (subjectName : String)
  | notFound (query : String)
  | ambiguous (candidateNames : List String)
  | failure (reason : String)
deriving DecidableEq, Repr

/-- Discriminator for the multiple-users branch. -/
def ToolOutcome.isAmbiguous : ToolOutcome → Bool
  | .ambiguous _ => true
  | _ => false

/-- The name lookup User.find with name matching the case-insensitive
regex built from the query: for a metacharacter-free name query this is
case-insensitive substring containment. -/
def nameMatches (nameQuery : String) (u : UserRec) : Bool :=
  containsSub (lowerStr nameQuery).data (lowerStr u.name).data

/-- Modelled from the spec: the email lookup User.find with an exact email
condition.  The Mongoose schema declares the email path lowercase and
unique, and the driver applies the lowercase setter to query values, so
the lookup compares the stored (lowercased) email with the lowercased
query value: an exact case-insensitive comparison. -/
def emailMatches (email : String) (u : UserRec) : Bool :=
  u.email == lowerStr email

/-- Embedding of handleUpdate (route.ts lines 128-143): resolve by email
when given, else by name; zero matches report the query, more than one
report every candidate name and leave the store untouched, exactly one is
updated in place. -/
def handleUpdate (db : List UserRec) (nameQuery : String) (updates : UserUpdates)
    (email : Option String) : ToolOutcome × List UserRec :=
  let users :=
    match email with
    | some e => db.filter (emailMatches e)
    | none => db.filter (nameMatches nameQuery)
  match users with
  | [] =>
    (.notFound (match email with | some e => e | none => "\"" ++ nameQuery ++ "\""), db)
  | [u] =>
    (.success (applyUpdates u updates).name,
     db.map (fun v => if v.id = u.id then applyUpdates v updates else v))
  | us => (.ambiguous (us.map UserRec.name), db)

/-- Embedding of handleDelete (route.ts lines 145-159): the same
resolution rule; exactly one match removes that record. -/
def handleDelete (db : List UserRec) (nameQuery : String)
    (email : Option String) : ToolOutcome × List UserRec :=
  let users :=
    match email with
    | some e => db.filter (emailMatches e)
    | none => db.filter (nameMatches nameQuery)
  match users with
  | [] =>
    (.notFound (match email with | some e => e | none => "\"" ++ nameQuery ++ "\""), db)
  | [u] => (.success u.name, db.filter (fun v => v.id ≠ u.id))
  | us => (.ambiguous (us.map UserRec.name), db)

/- The streaming POST orchestration (src/app/api/ai/chat/route.ts lines
171-367).  Every awaited external call is an oracle value: an Except error
is the exception the call threw, caught by the catch block of the stream
body. -/

/-- A tool invocation returned by the model; the arguments stay abstract,
since executing a tool writes nothing to the response channel beyond the
status line. -/
structure ToolCall where
  name : String
  args : String := ""
deriving DecidableEq, Repr

/-- The non-null result of extractFiltersWithLangChain: the cleaned filter
object, the coerced shouldReset boolean, and the unrelated flag.  The
function catches every internal failure and returns null, modelled as the
none of an optional oracle, so it never throws into the stream body. -/
structure ExtractOut where
  filters : FilterState
  shouldReset : Bool
  unrelated : Bool
deriving DecidableEq, Repr

/-- One write to the streaming response channel: a status JSON line, the
single metadata JSON line carrying filters/shouldReset/refresh, or a raw
content fragment. -/
inductive StreamEvent
  | status (s : String)
  | metadata (filters : FilterState) (shouldReset : Option Bool) (refresh : Bool)
  | content (s : String)
deriving DecidableEq, Repr

/-- Metadata discriminator. -/
def StreamEvent.isMetadata : StreamEvent → Bool
  | .metadata _ _ _ => true
  | _ => false

/-- Content discriminator. -/
def StreamEvent.isContent : StreamEvent → Bool
  | .content _ => true
  | _ => false

/-- Oracles for the awaited calls inside the ReadableStream start
callback, in execution order: connectDB, the two User.distinct reads, the
tool-binding model invocation, the filter extraction, and the chunks of
the final content stream (an error chunk is the stream or its iteration
throwing at that point). -/
structure StreamEnv where
  connect : Except String Unit
  roles : Except String (List String)
  depts : Except String (List String)
  invoke : Except String (List ToolCall)
  extractF : Option ExtractOut
  chunks : List (Except String String)
deriving Repr

/-- The final content loop: each chunk with non-empty content is enqueued
raw; an error aborts the loop and the catch block enqueues the error text
as one more content fragment. -/
def chunkEvents : List (Except String String) → List StreamEvent
  | [] => []
  | .ok c :: t => if c = "" then chunkEvents t else .content c :: chunkEvents t
  | .error e :: _ => [.content ("\nError: " ++ e)]

/-- Embedding of the ReadableStream start callback (route.ts lines
194-354): status lines before each phase; on the first thrown step the
catch block appends the error text as a content fragment and the channel
closes; otherwise the metadata line (filters-or-empty, the optional
shouldReset, the refresh flag) is enqueued after the last status and
before the content chunks.  Promise.all of the two distinct reads rejects
with the first rejected read. -/
def streamStart (env : StreamEnv) : List StreamEvent :=
  .status "Connecting to database..." ::
    match env.connect with
    | .error e => [.content ("\nError: " ++ e)]
    | .ok _ =>
      .status "Fetching system metadata..." ::
        match env.roles, env.depts with
        | .error e, _ => [.content ("\nError: " ++ e)]
        | .ok _, .error e => [.content ("\nError: " ++ e)]
        | .ok _, .ok _ =>
          .status "Analyzing your request..." ::
            match env.invoke with
            | .error e => [.content ("\nError: " ++ e)]
            | .ok tcs =>
              let refresh := !tcs.isEmpty
              let fr := if refresh then none else env.extractF
              (if refresh then [StreamEvent.status "Executing database tools..."] else []) ++
                (.status "Generating response..." ::
                  .metadata (match fr with | some o => o.filters | none => {})
                    (fr.map ExtractOut.shouldReset) refresh ::
                  chunkEvents env.chunks)

/-- The request body fields the handler destructures (history and
currentFilters influence only the model messages, not the branching or
the event structure). -/
structure ChatRequest where
  message : Option String
deriving DecidableEq, Repr

/-- The environment configuration the handler reads from process.env. -/
structure ChatConfig where
  apiKey : Option String
  endpoint : Option String
deriving DecidableEq, Repr

/-- JavaScript falsiness of an optional environment/body string: missing
or empty. -/
def jsFalsy : Option String → Bool
  | none => true
  | some s => s = ""

/-- A POST response: one of the plain JSON error returns, or the
streaming response carrying its ordered event list. -/
inductive ChatResponse
  | jsonError (error : String) (status : Nat)
  | stream (events : List StreamEvent)
deriving DecidableEq, Repr

/-- Embedding of POST (route.ts lines 171-367): the missing-message guard,
then the missing-configuration guard, then the streaming response. -/
def POST (req : ChatRequest) (cfg : ChatConfig) (env : StreamEnv) : ChatResponse :=
  if jsFalsy req.message then .jsonError "Message is required" 400
  else if jsFalsy cfg.apiKey || jsFalsy cfg.endpoint then
    .jsonError "Azure OpenAI config missing" 500
  else .stream (streamStart env)

/- Concrete instances used by the witnesses and counterexamples of the
claims below. -/

/-- The metadata component of the event-structure decomposition: at most
one metadata event. -/
def metaPart : Option (FilterState × Option Bool × Bool) → List StreamEvent
  | some p => [.metadata p.1 p.2.1 p.2.2]
  | none => []

/-- The two-Daryl store of the disambiguation scenario. -/
def darylDb : List UserRec :=
  [ { id := 0, name := "Daryl Tanner", email := "daryl.tanner@example.com" },
    { id := 1, name := "Daryl Smith", email := "daryl.smith@example.com" } ]

/-- A stream environment in which every external call succeeds trivially. -/
def envAllOk : StreamEnv :=
  { connect := .ok (), roles := .ok [], depts := .ok [], invoke := .ok [],
    extractF := none, chunks := [] }

/-- A stream environment whose database connection throws. -/
def envDbDown : StreamEnv :=
  { connect := .error "db down", roles := .ok [], depts := .ok [], invoke := .ok [],
    extractF := none, chunks := [] }

/-- A stream environment for a mutation turn: the model invocation returns
one delete_user tool call, and a (never consulted) extraction result is
present. -/
def envC2 : StreamEnv :=
  { connect := .ok (), roles := .ok ["Admin"], depts := .ok ["Sales"],
    invoke := .ok [{ name := "delete_user" }],
    extractF := some ⟨{ name := some "x" }, true, false⟩, chunks := [.ok "Done."] }

/-!  Theorems.  -/

set_option maxRecDepth 20000

/- Facts about the ASCII case mapping. -/

theorem toNat_ofNat_valid (n : Nat) (h : n < 55296) : (Char.ofNat n).toNat = n := by
  unfold Char.ofNat
  rw [dif_pos (Or.inl h)]
  rfl

theorem toLower_toLower (c : Char) : c.toLower.toLower = c.toLower := by
  unfold Char.toLower
  by_cases h : c.toNat ≥ 65 ∧ c.toNat ≤ 90
  · rw [if_pos h]
    have h1 : (Char.ofNat (c.toNat + 32)).toNat = c.toNat + 32 :=
      toNat_ofNat_valid _ (by omega)
    rw [if_neg (by rw [h1]; omega)]
  · rw [if_neg h, if_neg h]

theorem toUpper_toUpper (c : Char) : c.toUpper.toUpper = c.toUpper := by
  unfold Char.toUpper
  by_cases h : c.toNat ≥ 97 ∧ c.toNat ≤ 122
  · rw [if_pos h]
    have h1 : (Char.ofNat (c.toNat - 32)).toNat = c.toNat - 32 :=
      toNat_ofNat_valid _ (by omega)
    rw [if_neg (by rw [h1]; omega)]
  · rw [if_neg h, if_neg h]

theorem toLower_toUpper (c : Char) : c.toUpper.toLower = c.toLower := by
  unfold Char.toUpper Char.toLower
  by_cases h : c.toNat ≥ 97 ∧ c.toNat ≤ 122
  · rw [if_pos h]
    have h1 : (Char.ofNat (c.toNat - 32)).toNat = c.toNat - 32 :=
      toNat_ofNat_valid _ (by omega)
    rw [if_pos (by rw [h1]; omega), if_neg (by omega), h1]
    have h2 : c.toNat - 32 + 32 = c.toNat := by omega
    rw [h2, Char.ofNat_toNat]
  · rw [if_neg h]

theorem toLower_of_small (c : Char) (h : c.toNat < 65) : c.toLower = c := by
  unfold Char.toLower
  rw [if_neg (by omega)]

theorem lowerStr_lowerStr (s : String) : lowerStr (lowerStr s) = lowerStr s := by
  unfold lowerStr
  cases s with
  | mk data =>
    simp [List.map_map, Function.comp_def, toLower_toLower]

theorem lowerStr_capitalizeJs (s : String) : lowerStr (capitalizeJs s) = lowerStr s := by
  unfold lowerStr capitalizeJs
  cases s with
  | mk data =>
    cases data with
    | nil => rfl
    | cons c cs =>
      simp [List.map_map, Function.comp_def, toLower_toUpper, toLower_toLower]

theorem capitalizeJs_capitalizeJs (s : String) :
    capitalizeJs (capitalizeJs s) = capitalizeJs s := by
  unfold capitalizeJs
  cases s with
  | mk data =>
    cases data with
    | nil => rfl
    | cons c cs =>
      simp [List.map_map, Function.comp_def, toUpper_toUpper, toLower_toLower]

theorem lowerStr_length (s : String) : (lowerStr s).length = s.length := by
  unfold lowerStr
  cases s with
  | mk data => simp [String.length]

theorem capitalizeJs_length (s : String) : (capitalizeJs s).length = s.length := by
  unfold capitalizeJs
  cases s with
  | mk data =>
    cases data with
    | nil => rfl
    | cons c cs => simp [String.length]

theorem capitalizeJs_ne_empty (s : String) (h : s ≠ "") : capitalizeJs s ≠ "" := by
  intro hc
  apply h
  have := capitalizeJs_length s
  rw [hc] at this
  cases s with
  | mk data =>
    cases data with
    | nil => rfl
    | cons c cs => simp [String.length] at this

theorem lowerStr_eq_length_eq {a b : String} (h : lowerStr a = lowerStr b) :
    a.length = b.length := by
  have : (lowerStr a).length = (lowerStr b).length := by rw [h]
  rwa [lowerStr_length, lowerStr_length] at this

/- Projection lemmas for the assembled extractor: each field of the filter
object is exactly the output of its stage. -/

theorem parse_role_def (q : String) (roles depts : List String) :
    (parseQueryToFilters q roles depts).role =
      if (roleSetOf q.data roles).isEmpty then none else some (roleSetOf q.data roles) := rfl

theorem parse_dept_def (q : String) (roles depts : List String) :
    (parseQueryToFilters q roles depts).department =
      if (deptSetOf q.data depts).isEmpty then none else some (deptSetOf q.data depts) := rfl

theorem parse_minAge_def (q : String) (roles depts : List String) :
    (parseQueryToFilters q roles depts).minAge = (ageCascade (q.data.map Char.toLower)).1 := rfl

theorem parse_maxAge_def (q : String) (roles depts : List String) :
    (parseQueryToFilters q roles depts).maxAge = (ageCascade (q.data.map Char.toLower)).2 := rfl

/-- Claim C3, counterexample: on the query of the end-to-end scenario, with
live vocabulary roles Developer and departments Sales, the extractor does
not return the claimed filter object: the claimed object carries sortBy
age and sortOrder desc, but neither sort regex matches the words sorted by
here (the first needs sort-order-arrange followed by whitespace, the
second needs the literal word users after show), so no sort field is set. -/
theorem parseQuery_sales_scenario_ne_claim :
    parseQueryToFilters "Show developers in Sales with age max 40 sorted by age desc"
      ["Developer"] ["Sales"] ≠
    { role := some ["Developer"], department := some ["Sales"], maxAge := some "40",
      sortBy := some "age", sortOrder := some "desc" } := by decide

/-- Claim C3, amended: the scenario query yields role Developer, department
Sales and maxAge 40, and nothing else — in particular no sort fields. -/
theorem parseQuery_sales_scenario_actual :
    parseQueryToFilters "Show developers in Sales with age max 40 sorted by age desc"
      ["Developer"] ["Sales"] =
    { role := some ["Developer"], department := some ["Sales"], maxAge := some "40" } := by decide

/-- Claim C10: the extractor never returns an empty role list or an empty
department list; the role and department fields are present exactly when
the corresponding scanned set is non-empty, so a presence check coincides
with a non-emptiness check. -/
theorem role_dept_fields_nonempty (q : String) (roles depts : List String) :
    (parseQueryToFilters q roles depts).role ≠ some [] ∧
    (parseQueryToFilters q roles depts).department ≠ some [] ∧
    (parseQueryToFilters q roles depts).role.isSome = !(roleSetOf q.data roles).isEmpty ∧
    (parseQueryToFilters q roles depts).department.isSome = !(deptSetOf q.data depts).isEmpty := by
  rw [parse_role_def, parse_dept_def]
  refine ⟨?_, ?_, ?_, ?_⟩
  · rcases h : (roleSetOf q.data roles).isEmpty with _ | _
    · simp only [h, Bool.false_eq_true, if_false, Ne, Option.some.injEq]
      intro hc
      rw [hc] at h
      simp at h
    · simp [h]
  · rcases h : (deptSetOf q.data depts).isEmpty with _ | _
    · simp only [h, Bool.false_eq_true, if_false, Ne, Option.some.injEq]
      intro hc
      rw [hc] at h
      simp at h
    · simp [h]
  · rcases h : (roleSetOf q.data roles).isEmpty with _ | _ <;> simp [h]
  · rcases h : (deptSetOf q.data depts).isEmpty with _ | _ <;> simp [h]

/-- Claim C10 witness: a concrete run in which both fields are present and
non-empty. -/
theorem role_dept_fields_nonempty_witness :
    (parseQueryToFilters "show developers in Sales" ["Developer"] ["Sales"]).role ≠ some [] ∧
    (parseQueryToFilters "show developers in Sales" ["Developer"] ["Sales"]).department ≠ some [] ∧
    (parseQueryToFilters "show developers in Sales" ["Developer"] ["Sales"]).role.isSome =
      !(roleSetOf "show developers in Sales".data ["Developer"]).isEmpty ∧
    (parseQueryToFilters "show developers in Sales" ["Developer"] ["Sales"]).department.isSome =
      !(deptSetOf "show developers in Sales".data ["Sales"]).isEmpty :=
  role_dept_fields_nonempty "show developers in Sales" ["Developer"] ["Sales"]

/-- Claim C7: an update or delete tool execution resolving by a name query
that matches more than one stored record reports the Ambiguous outcome
with every candidate name and leaves the record store unchanged. -/
theorem name_multi_match_ambiguous_unchanged (db : List UserRec) (q : String)
    (up : UserUpdates) (h : 1 < (db.filter (nameMatches q)).length) :
    handleUpdate db q up none =
      (.ambiguous ((db.filter (nameMatches q)).map UserRec.name), db) ∧
    handleDelete db q none =
      (.ambiguous ((db.filter (nameMatches q)).map UserRec.name), db) := by
  unfold handleUpdate handleDelete
  rcases hfl : db.filter (nameMatches q) with _ | ⟨u, _ | ⟨v, vs⟩⟩
  · rw [hfl] at h; simp at h
  · rw [hfl] at h; simp at h
  · simp [hfl]

/-- Claim C7 witness: the Daryl scenario — the name query Daryl matches
both stored records, the outcome lists both names, and the store is
unchanged by update and by delete. -/
theorem name_multi_match_ambiguous_unchanged_witness :
    handleUpdate darylDb "Daryl" { age := some 30 } none =
      (.ambiguous ["Daryl Tanner", "Daryl Smith"], darylDb) ∧
    handleDelete darylDb "Daryl" none =
      (.ambiguous ["Daryl Tanner", "Daryl Smith"], darylDb) := by
  have h := name_multi_match_ambiguous_unchanged darylDb "Daryl" { age := some 30 }
    (by decide)
  exact ⟨by rw [h.1]; decide, by rw [h.2]; decide⟩

/-- Claim C9, amended: on a request whose message is present, a missing or
empty model API key or endpoint makes the handler return the plain JSON
configuration error with status 500 before any stream exists, so no
status, metadata or content event is emitted.  (A request with a missing
or empty message fails the earlier message guard instead; see the
counterexample.) -/
theorem config_missing_json_error (req : ChatRequest) (cfg : ChatConfig) (env : StreamEnv)
    (hm : jsFalsy req.message = false)
    (hc : (jsFalsy cfg.apiKey || jsFalsy cfg.endpoint) = true) :
    POST req cfg env = .jsonError "Azure OpenAI config missing" 500 := by
  unfold POST
  simp [hm, hc]

/-- Claim C9, counterexample to the unconditional claim: a request with a
missing message and missing configuration fails with the message guard's
JSON error, not with the configuration error. -/
theorem config_missing_message_guard_first :
    jsFalsy (ChatConfig.mk none none).apiKey = true ∧
    POST ⟨none⟩ ⟨none, none⟩ envAllOk = .jsonError "Message is required" 400 ∧
    POST ⟨none⟩ ⟨none, none⟩ envAllOk ≠ .jsonError "Azure OpenAI config missing" 500 := by
  refine ⟨rfl, rfl, by decide⟩

/-- Claim C9 witness: a present message with a missing API key yields the
configuration error response. -/
theorem config_missing_json_error_witness :
    POST ⟨some "hi"⟩ ⟨none, some "https://e"⟩ envAllOk =
      .jsonError "Azure OpenAI config missing" 500 :=
  config_missing_json_error ⟨some "hi"⟩ ⟨none, some "https://e"⟩ envAllOk (by decide) (by decide)

/-- Every run of the final content loop yields content events only. -/
theorem chunkEvents_contents (l : List (Except String String)) :
    ∃ cs : List String, chunkEvents l = cs.map StreamEvent.content := by
  induction l with
  | nil => exact ⟨[], rfl⟩
  | cons h t ih =>
    rcases h with e | c
    · exact ⟨["\nError: " ++ e], rfl⟩
    · rcases ih with ⟨cs, hcs⟩
      by_cases hc : c = ""
      · exact ⟨cs, by simp [chunkEvents, hc, hcs]⟩
      · exact ⟨c :: cs, by simp [chunkEvents, hc, hcs]⟩

/-- The content loop never emits a metadata event. -/
theorem chunkEvents_no_meta (l : List (Except String String)) :
    (chunkEvents l).filter StreamEvent.isMetadata = [] := by
  induction l with
  | nil => rfl
  | cons h t ih =>
    rcases h with e | c
    · rfl
    · by_cases hc : c = ""
      · simp [chunkEvents, hc, ih]
      · simp [chunkEvents, hc, ih, StreamEvent.isMetadata]

/-- Claim C1, amended: every streamed execution decomposes as status events,
then at most one metadata event, then content events only — so whenever the
metadata line is emitted it precedes every content fragment; but an
execution that fails before the metadata step emits its error text as a
content fragment with no metadata line at all (see the counterexample). -/
theorem streamStart_event_structure (env : StreamEnv) :
    ∃ (ss : List String) (om : Option (FilterState × Option Bool × Bool)) (cs : List String),
      streamStart env = ss.map StreamEvent.status ++ metaPart om ++ cs.map StreamEvent.content := by
  rcases env with ⟨conn, roles, depts, inv, ext, chunks⟩
  unfold streamStart
  rcases conn with e | u
  · exact ⟨["Connecting to database..."], none, ["\nError: " ++ e], rfl⟩
  · rcases roles with e | rs
    · exact ⟨["Connecting to database...", "Fetching system metadata..."], none,
        ["\nError: " ++ e], rfl⟩
    · rcases depts with e | ds
      · exact ⟨["Connecting to database...", "Fetching system metadata..."], none,
          ["\nError: " ++ e], rfl⟩
      · rcases inv with e | tcs
        · exact ⟨["Connecting to database...", "Fetching system metadata...",
            "Analyzing your request..."], none, ["\nError: " ++ e], rfl⟩
        · rcases chunkEvents_contents chunks with ⟨cs, hcs⟩
          rcases ht : tcs.isEmpty with _ | _
          · refine ⟨["Connecting to database...", "Fetching system metadata...",
              "Analyzing your request...", "Executing database tools...",
              "Generating response..."],
              some ({}, none, true), cs, ?_⟩
            simp [ht, hcs, metaPart]
          · refine ⟨["Connecting to database...", "Fetching system metadata...",
              "Analyzing your request...", "Generating response..."],
              some ((match ext with | some o => o.filters | none => {}),
                ext.map ExtractOut.shouldReset, false), cs, ?_⟩
            simp [ht, hcs, metaPart]

/-- Claim C1, counterexample: when the database connection throws, the
stream carries a content fragment (the error text) and no metadata event
at all, refuting metadata-before-content on the error path. -/
theorem streamStart_error_before_metadata :
    (streamStart envDbDown).all (fun e => !e.isMetadata) = true ∧
    (streamStart envDbDown).any StreamEvent.isContent = true := by decide

/-- Claim C2: on a mutation turn (the model invocation returns at least one
tool call) the filter extraction oracle is never consulted — the emitted
events are identical for every extraction result — and the single metadata
event carries the empty filter object, no shouldReset, and refresh true. -/
theorem mutation_turn_skips_extraction (env : StreamEnv) (tcs : List ToolCall)
    (hinv : env.invoke = .ok tcs) (hne : tcs ≠ []) :
    (∀ f, streamStart { env with extractF := f } = streamStart env) ∧
    (env.connect = .ok () → ∀ rs ds, env.roles = .ok rs → env.depts = .ok ds →
      (streamStart env).filter StreamEvent.isMetadata = [.metadata {} none true]) := by
  have hemp : tcs.isEmpty = false := by
    cases tcs
    · exact absurd rfl hne
    · rfl
  rcases env with ⟨conn, roles, depts, inv, ext, chunks⟩
  simp only at hinv
  subst hinv
  constructor
  · intro f
    unfold streamStart
    rcases conn with e | u
    · rfl
    · rcases roles with e | rs
      · rfl
      · rcases depts with e | ds
        · rfl
        · simp [hemp]
  · intro hconn rs ds hr hd
    simp only at hconn hr hd
    subst hconn
    subst hr
    subst hd
    unfold streamStart
    simp [hemp, StreamEvent.isMetadata, chunkEvents_no_meta]

/-- Claim C2 witness: a concrete mutation turn — replacing the extraction
result changes nothing, and the metadata event is empty-filters with
refresh true. -/
theorem mutation_turn_skips_extraction_witness :
    streamStart { envC2 with extractF := none } = streamStart envC2 ∧
    (streamStart envC2).filter StreamEvent.isMetadata = [.metadata {} none true] :=
  ⟨(mutation_turn_skips_extraction envC2 [{ name := "delete_user" }] rfl (by decide)).1 none,
   (mutation_turn_skips_extraction envC2 [{ name := "delete_user" }] rfl (by decide)).2
     rfl ["Admin"] ["Sales"] rfl rfl⟩

/- Set lemmas for the role/department passes. -/

theorem mem_insertDedup_self (l : List String) (x : String) : x ∈ insertDedup l x := by
  unfold insertDedup
  by_cases h : x ∈ l
  · simp [List.elem_eq_mem, h]
  · simp [List.elem_eq_mem, h]

theorem mem_insertDedup_of_mem {l : List String} {x : String} (y : String) (h : x ∈ l) :
    x ∈ insertDedup l y := by
  unfold insertDedup
  by_cases hc : y ∈ l <;> simp [List.elem_eq_mem, hc, h]

theorem nodup_insertDedup {l : List String} (x : String) (h : l.Nodup) :
    (insertDedup l x).Nodup := by
  unfold insertDedup
  by_cases hc : x ∈ l
  · rw [if_pos (by simp [List.elem_eq_mem, hc])]
    exact h
  · rw [if_neg (by simp [List.elem_eq_mem, hc])]
    rw [List.nodup_append]
    refine ⟨h, List.nodup_singleton x, ?_⟩
    intro a ha hb
    simp at hb
    subst hb
    exact hc ha

theorem vocabDynPass_cons (q : List Char) (v : String) (vs : List String) (acc : List String) :
    vocabDynPass q (v :: vs) acc =
      vocabDynPass q vs
        (if v = "" then acc
         else if vocabWordTest v q then insertDedup acc v else acc) := rfl

theorem mem_vocabDynPass_of_mem_acc {q : List Char} {x : String} :
    ∀ (vocab : List String) (acc : List String), x ∈ acc → x ∈ vocabDynPass q vocab acc := by
  intro vocab
  induction vocab with
  | nil => intro acc h; exact h
  | cons v vs ih =>
    intro acc h
    rw [vocabDynPass_cons]
    apply ih
    by_cases h1 : v = "" <;> by_cases h2 : vocabWordTest v q <;>
      simp [h1, h2, mem_insertDedup_of_mem, h]

theorem mem_vocabDynPass {q : List Char} {x : String} (hx : x ≠ "")
    (hw : vocabWordTest x q = true) :
    ∀ (vocab : List String) (acc : List String), x ∈ vocab → x ∈ vocabDynPass q vocab acc := by
  intro vocab
  induction vocab with
  | nil => intro acc h; cases h
  | cons v vs ih =>
    intro acc h
    rw [vocabDynPass_cons]
    rcases List.mem_cons.mp h with rfl | hmem
    · apply mem_vocabDynPass_of_mem_acc
      simp [hx, hw, mem_insertDedup_self]
    · exact ih _ hmem

theorem nodup_vocabDynPass (q : List Char) :
    ∀ (vocab : List String) (acc : List String), acc.Nodup → (vocabDynPass q vocab acc).Nodup := by
  intro vocab
  induction vocab with
  | nil => intro acc h; exact h
  | cons v vs ih =>
    intro acc h
    rw [vocabDynPass_cons]
    apply ih
    by_cases h1 : v = "" <;> by_cases h2 : vocabWordTest v q <;>
      simp [h1, h2, nodup_insertDedup, h]

theorem nodup_roleCommonPass (q : List Char) (roles : List String) :
    ∀ (pats : List (String × List String)) (acc : List String), acc.Nodup →
      (pats.foldl
        (fun acc item =>
          if scanWord (item.2.map String.data) none q then
            insertDedup acc
              (let m := fuzzyMatch item.1 roles (2 / 5)
               if m = "" then item.1 else m)
          else acc)
        acc).Nodup := by
  intro pats
  induction pats with
  | nil => intro acc h; exact h
  | cons p ps ih =>
    intro acc h
    simp only [List.foldl_cons]
    apply ih
    by_cases hs : scanWord (p.2.map String.data) none q <;>
      simp [hs, nodup_insertDedup, h]

theorem nodup_roleSetOf (q : List Char) (roles : List String) : (roleSetOf q roles).Nodup := by
  unfold roleSetOf
  exact nodup_vocabDynPass q roles _
    (nodup_roleCommonPass q roles commonRolePatterns [] List.nodup_nil)

/-- Claim C5: every live role name that occurs in the query as a standalone
word (the dynamic word-boundary test of the source) ends up in the
extractor's role set — in particular any two distinct ones — and the set
has no duplicates, so no earlier match is overwritten by a later one. -/
theorem role_set_contains_all_matches (q : String) (roles depts : List String)
    (r1 r2 : String) (h1 : r1 ∈ roles) (h2 : r2 ∈ roles) (_hne : r1 ≠ r2)
    (he1 : r1 ≠ "") (he2 : r2 ≠ "")
    (hw1 : vocabWordTest r1 q.data = true) (hw2 : vocabWordTest r2 q.data = true) :
    ∃ l, (parseQueryToFilters q roles depts).role = some l ∧
      r1 ∈ l ∧ r2 ∈ l ∧ l.Nodup := by
  have hm1 : r1 ∈ roleSetOf q.data roles := mem_vocabDynPass he1 hw1 roles _ h1
  have hm2 : r2 ∈ roleSetOf q.data roles := mem_vocabDynPass he2 hw2 roles _ h2
  refine ⟨roleSetOf q.data roles, ?_, hm1, hm2, nodup_roleSetOf q.data roles⟩
  rw [parse_role_def]
  rw [if_neg ?hne]
  case hne =>
    have hnil : roleSetOf q.data roles ≠ [] := List.ne_nil_of_mem hm1
    simp [List.isEmpty_iff, hnil]

/-- Claim C5 witness: both live roles named in one query land in the role
set, without duplicates. -/
theorem role_set_contains_all_matches_witness :
    ∃ l, (parseQueryToFilters "list the Admin and Owner people" ["Admin", "Owner"] []).role =
        some l ∧ "Admin" ∈ l ∧ "Owner" ∈ l ∧ l.Nodup :=
  role_set_contains_all_matches "list the Admin and Owner people" ["Admin", "Owner"] []
    "Admin" "Owner" (by decide) (by decide) (by decide) (by decide) (by decide)
    (by decide) (by decide)

/-- With pairwise-distinct stored emails, an exact email filter returns at
most one record. -/
theorem filter_email_unique (db : List UserRec) (hU : (db.map UserRec.email).Nodup) (e : String) :
    (db.filter (fun u => u.email == e)).length ≤ 1 := by
  induction db with
  | nil => simp
  | cons u t ih =>
    simp only [List.map_cons, List.nodup_cons] at hU
    rcases hU with ⟨hnot, ht⟩
    by_cases he : u.email == e
    · have ht0 : t.filter (fun v => v.email == e) = [] := by
        rw [List.filter_eq_nil_iff]
        intro v hv hbe
        apply hnot
        have hve : v.email = e := by simpa using hbe
        have hue : u.email = e := by simpa using he
        rw [hue, ← hve]
        exact List.mem_map_of_mem UserRec.email hv
      simp [List.filter_cons, he, ht0]
    · simp only [List.filter_cons, he, Bool.false_eq_true, if_false]
      exact ih ht

/-- Claim C8: under the schema invariants of the User model (stored emails
lowercased and pairwise distinct), an entity resolution that supplies an
email compares emails exactly and case-insensitively, matches at most one
record, and an update or delete resolved by email never produces the
Ambiguous outcome. -/
theorem email_lookup_unique_not_ambiguous (db : List UserRec)
    (hU : (db.map UserRec.email).Nodup)
    (hL : ∀ u ∈ db, u.email = lowerStr u.email)
    (e q : String) (up : UserUpdates) :
    (db.filter (emailMatches e)).length ≤ 1 ∧
    (∀ u ∈ db, emailMatches e u = (lowerStr u.email == lowerStr e)) ∧
    (handleUpdate db q up (some e)).1.isAmbiguous = false ∧
    (handleDelete db q (some e)).1.isAmbiguous = false := by
  have hfe : db.filter (emailMatches e) = db.filter (fun u => u.email == lowerStr e) := rfl
  have hlen : (db.filter (emailMatches e)).length ≤ 1 := by
    rw [hfe]
    exact filter_email_unique db hU (lowerStr e)
  refine ⟨hlen, ?_, ?_, ?_⟩
  · intro u hu
    unfold emailMatches
    nth_rewrite 1 [hL u hu]
    rfl
  · unfold handleUpdate
    rcases husers : db.filter (emailMatches e) with _ | ⟨u, _ | ⟨v, vs⟩⟩
    · simp [husers, ToolOutcome.isAmbiguous]
    · simp [husers, ToolOutcome.isAmbiguous]
    · rw [husers] at hlen
      simp at hlen
  · unfold handleDelete
    rcases husers : db.filter (emailMatches e) with _ | ⟨u, _ | ⟨v, vs⟩⟩
    · simp [husers, ToolOutcome.isAmbiguous]
    · simp [husers, ToolOutcome.isAmbiguous]
    · rw [husers] at hlen
      simp at hlen

/-- Claim C8 witness: a mixed-case email query against the two-record store
resolves case-insensitively and is never ambiguous. -/
theorem email_lookup_unique_not_ambiguous_witness :
    (darylDb.filter (emailMatches "Daryl.Tanner@Example.com")).length ≤ 1 ∧
    (∀ u ∈ darylDb, emailMatches "Daryl.Tanner@Example.com" u =
      (lowerStr u.email == lowerStr "Daryl.Tanner@Example.com")) ∧
    (handleUpdate darylDb "Daryl" { age := some 31 }
      (some "Daryl.Tanner@Example.com")).1.isAmbiguous = false ∧
    (handleDelete darylDb "Daryl" (some "Daryl.Tanner@Example.com")).1.isAmbiguous = false :=
  email_lookup_unique_not_ambiguous darylDb (by decide) (by decide)
    "Daryl.Tanner@Example.com" "Daryl" { age := some 31 }

/- Digit-string facts used for the universal max-age property. -/

theorem digitChar_isDigit (m : Nat) (h : m < 10) : isDigitChar (Nat.digitChar m) = true := by
  interval_cases m <;> decide

theorem toDigitsCore_digits :
    ∀ (fuel n : Nat) (acc : List Char), (∀ c ∈ acc, isDigitChar c = true) →
      ∀ c ∈ Nat.toDigitsCore 10 fuel n acc, isDigitChar c = true := by
  intro fuel
  induction fuel with
  | zero =>
    intro n acc hacc c hc
    simp only [Nat.toDigitsCore] at hc
    exact hacc c hc
  | succ f ih =>
    intro n acc hacc c hc
    simp only [Nat.toDigitsCore] at hc
    have hd : isDigitChar ((n % 10).digitChar) = true :=
      digitChar_isDigit _ (Nat.mod_lt _ (by norm_num))
    by_cases hz : n / 10 = 0
    · rw [if_pos hz] at hc
      rcases List.mem_cons.mp hc with rfl | hmem
      · exact hd
      · exact hacc c hmem
    · rw [if_neg hz] at hc
      refine ih _ _ ?_ c hc
      intro d hdm
      rcases List.mem_cons.mp hdm with rfl | hmem
      · exact hd
      · exact hacc d hmem

theorem toDigitsCore_ne_nil :
    ∀ (fuel n : Nat) (acc : List Char), acc ≠ [] → Nat.toDigitsCore 10 fuel n acc ≠ [] := by
  intro fuel
  induction fuel with
  | zero =>
    intro n acc hacc
    simpa [Nat.toDigitsCore] using hacc
  | succ f ih =>
    intro n acc hacc
    simp only [Nat.toDigitsCore]
    by_cases hz : n / 10 = 0
    · rw [if_pos hz]
      simp
    · rw [if_neg hz]
      exact ih _ _ (by simp)

theorem repr_data (a : Nat) : (Nat.repr a).data = Nat.toDigits 10 a := rfl

theorem repr_digits (a : Nat) : ∀ c ∈ (Nat.repr a).data, isDigitChar c = true := by
  rw [repr_data]
  unfold Nat.toDigits
  exact toDigitsCore_digits _ _ _ (by simp)

theorem repr_data_ne_nil (a : Nat) : (Nat.repr a).data ≠ [] := by
  rw [repr_data]
  unfold Nat.toDigits
  simp only [Nat.toDigitsCore]
  by_cases hz : a / 10 = 0
  · rw [if_pos hz]
    simp
  · rw [if_neg hz]
    exact toDigitsCore_ne_nil _ _ _ (by simp)

theorem digit_toLower {c : Char} (h : isDigitChar c = true) : c.toLower = c := by
  simp only [isDigitChar, Bool.and_eq_true, decide_eq_true_eq] at h
  exact toLower_of_small c (by omega)

theorem digit_not_space {c : Char} (h : isDigitChar c = true) : isSpaceChar c = false := by
  simp only [isDigitChar, Bool.and_eq_true, decide_eq_true_eq] at h
  simp only [isSpaceChar, Bool.or_eq_false_iff]
  refine ⟨⟨⟨⟨⟨?_, ?_⟩, ?_⟩, ?_⟩, ?_⟩, ?_⟩ <;>
    · simp only [decide_eq_false_iff_not]
      intro hc
      subst hc
      revert h
      decide

theorem takeWhile_all {p : Char → Bool} :
    ∀ {l : List Char}, (∀ c ∈ l, p c = true) → l.takeWhile p = l := by
  intro l
  induction l with
  | nil => intro _; rfl
  | cons c t ih =>
    intro h
    rw [List.takeWhile_cons, if_pos (h c (by simp))]
    rw [ih (fun d hd => h d (by simp [hd]))]

theorem scanL_head_some {f : List Char → Option α} {l : List Char} {r : α}
    (h : f l = some r) : scanL f l = some r := by
  cases l <;> simp [scanL, h]

theorem digitsRun_all (ds : List Char) (h1 : ds ≠ [])
    (h2 : ∀ c ∈ ds, isDigitChar c = true) :
    digitsRun ds = some (ds.asString, []) := by
  unfold digitsRun
  rw [takeWhile_all h2]
  rw [if_neg (by simp [List.isEmpty_iff, h1])]
  simp

theorem starBT_digits (ds : List Char) (h1 : ds ≠ [])
    (h2 : ∀ c ∈ ds, isDigitChar c = true) :
    starBT isSpaceChar (fun l => (digitsRun l).map Prod.fst) ds = some ds.asString := by
  cases ds with
  | nil => exact absurd rfl h1
  | cons d t =>
    have hs : isSpaceChar d = false := digit_not_space (h2 d (by simp))
    rw [starBT, hs]
    simp only [Bool.false_eq_true, if_false]
    rw [digitsRun_all (d :: t) (by simp) h2]
    rfl

theorem maxAgeAt_eval (ds : List Char) (h1 : ds ≠ [])
    (h2 : ∀ c ∈ ds, isDigitChar c = true) :
    maxAgeAt ("max age ".data ++ ds) = some ds.asString := by
  have hsb := starBT_digits ds h1 h2
  show maxAgeAt ('m' :: 'a' :: 'x' :: ' ' :: 'a' :: 'g' :: 'e' :: ' ' :: ds) = some ds.asString
  simp [maxAgeAt, tryCI, optCI, optAltCI, altCI, orE, dropCI, starBT, isSpaceChar, hsb]

/-- Claim C4: for every natural number a the query built as max-age-a
yields maxAge equal to the decimal string of a and no minAge; and for
every query the (minAge, maxAge) pair of the extractor is exactly the
cascade of the four age regexes in the source's order — max age first,
then age-between, then min age, then bare age — with at most one rule
firing. -/
theorem maxAge_extraction_and_precedence :
    (∀ (a : Nat) (roles depts : List String),
      (parseQueryToFilters ("max age " ++ Nat.repr a) roles depts).maxAge = some (Nat.repr a) ∧
      (parseQueryToFilters ("max age " ++ Nat.repr a) roles depts).minAge = none) ∧
    (∀ (q : String) (roles depts : List String),
      ((parseQueryToFilters q roles depts).minAge, (parseQueryToFilters q roles depts).maxAge) =
        (match scanL maxAgeAt (q.data.map Char.toLower) with
         | some m => (none, some m)
         | none =>
           match scanL ageRangeAt (q.data.map Char.toLower) with
           | some p => (some p.1, some p.2)
           | none =>
             match scanL minAgeAt (q.data.map Char.toLower) with
             | some m => (some m, none)
             | none =>
               match scanL ageAt (q.data.map Char.toLower) with
               | some m => (some m, some m)
               | none => (none, none))) := by
  constructor
  · intro a roles depts
    rw [parse_maxAge_def, parse_minAge_def]
    have hdig : ∀ (l : List Char), (∀ c ∈ l, isDigitChar c = true) →
        l.map Char.toLower = l := by
      intro l
      induction l with
      | nil => intro _; rfl
      | cons c t ih =>
        intro h
        simp only [List.map_cons]
        rw [digit_toLower (h c (by simp)), ih (fun d hd => h d (by simp [hd]))]
    have hlower : ("max age " ++ Nat.repr a).data.map Char.toLower =
        "max age ".data ++ (Nat.repr a).data := by
      rw [String.data_append, List.map_append, hdig _ (repr_digits a)]
      rw [show "max age ".data.map Char.toLower = "max age ".data from by decide]
    rw [hlower]
    unfold ageCascade
    rw [scanL_head_some (maxAgeAt_eval _ (repr_data_ne_nil a) (repr_digits a))]
    exact ⟨rfl, rfl⟩
  · intro q roles depts
    rfl

/- Lemmas for the fuzzy matcher (claim C6). -/

theorem str_length_eq_zero {s : String} (h : s.length = 0) : s = "" := by
  cases s with
  | mk d =>
    cases d with
    | nil => rfl
    | cons c t => simp [String.length] at h

theorem ne_empty_of_lower_eq {x y : String} (h : lowerStr y = lowerStr x) (hx : x ≠ "") :
    y ≠ "" := by
  intro hy
  apply hx
  apply str_length_eq_zero
  rw [← lowerStr_eq_length_eq h, hy]
  rfl

theorem fuseScore_congr_right (input : String) {y z : String} (h : lowerStr y = lowerStr z) :
    fuseScore input y = fuseScore input z := by
  unfold fuseScore
  rw [h, lowerStr_eq_length_eq h]

theorem fuseScore_congr_left {a b : String} (h : lowerStr a = lowerStr b) (z : String) :
    fuseScore a z = fuseScore b z := by
  unfold fuseScore
  rw [h, lowerStr_eq_length_eq h]

theorem fuseBest_congr {a b : String} (h : lowerStr a = lowerStr b) :
    ∀ (opts : List String) (acc : Option (String × ℚ)),
      opts.foldl (fuseStep a) acc = opts.foldl (fuseStep b) acc := by
  intro opts
  induction opts with
  | nil => intro acc; rfl
  | cons o os ih =>
    intro acc
    simp only [List.foldl_cons]
    have hstep : fuseStep a acc o = fuseStep b acc o := by
      unfold fuseStep
      rw [fuseScore_congr_left h o]
    rw [hstep]
    exact ih _

theorem fold_keeps_or_decreases (input : String) :
    ∀ (opts : List String) (w : String) (sw : ℚ) (y : String) (s : ℚ),
      opts.foldl (fuseStep input) (some (w, sw)) = some (y, s) →
      ((y, s) = (w, sw) ∨ s < sw) := by
  intro opts
  induction opts with
  | nil =>
    intro w sw y s h
    simp only [List.foldl_nil, Option.some.injEq] at h
    left
    exact h.symm
  | cons o os ih =>
    intro w sw y s h
    simp only [List.foldl_cons] at h
    by_cases hc : fuseScore input o < sw
    · rw [show fuseStep input (some (w, sw)) o = some (o, fuseScore input o) from by
        simp [fuseStep, hc]] at h
      rcases ih o (fuseScore input o) y s h with heq | hlt
      · right
        have hs : s = fuseScore input o := congrArg Prod.snd heq
        rw [hs]
        exact hc
      · right
        exact hlt.trans hc
    · rw [show fuseStep input (some (w, sw)) o = some (w, sw) from by
        simp [fuseStep, hc]] at h
      exact ih w sw y s h

theorem fold_out (input : String) :
    ∀ (opts : List String) (acc : Option (String × ℚ)) (y : String) (s : ℚ),
      opts.foldl (fuseStep input) acc = some (y, s) →
      acc = some (y, s) ∨ (y ∈ opts ∧ s = fuseScore input y) := by
  intro opts
  induction opts with
  | nil =>
    intro acc y s h
    simp only [List.foldl_nil] at h
    left
    exact h
  | cons o os ih =>
    intro acc y s h
    simp only [List.foldl_cons] at h
    rcases ih (fuseStep input acc o) y s h with hacc' | ⟨hmem, hs⟩
    · rcases hacc : acc with _ | ⟨w0, sw0⟩
      · rw [hacc] at hacc'
        simp only [fuseStep, Option.some.injEq, Prod.mk.injEq] at hacc'
        right
        refine ⟨by simp [← hacc'.1], ?_⟩
        rw [← hacc'.1]
        exact hacc'.2.symm
      · rw [hacc] at hacc'
        by_cases hrep : fuseScore input o < sw0
        · rw [show fuseStep input (some (w0, sw0)) o = some (o, fuseScore input o) from by
            simp [fuseStep, hrep]] at hacc'
          simp only [Option.some.injEq, Prod.mk.injEq] at hacc'
          right
          refine ⟨by simp [← hacc'.1], ?_⟩
          rw [← hacc'.1]
          exact hacc'.2.symm
        · rw [show fuseStep input (some (w0, sw0)) o = some (w0, sw0) from by
            simp [fuseStep, hrep]] at hacc'
          left
          exact hacc'
    · right
      exact ⟨by simp [hmem], hs⟩

theorem fold_from_o (input : String) (os : List String) (o y : String) (s : ℚ)
    (hlo : lowerStr o = lowerStr y)
    (h : os.foldl (fuseStep input) (some (o, fuseScore input o)) = some (y, s)) : y = o := by
  rcases fold_keeps_or_decreases input os o (fuseScore input o) y s h with heq | hlt
  · rw [Prod.mk.injEq] at heq
    exact heq.1
  · exfalso
    rcases fold_out input os _ y s h with hacc' | ⟨hmem, hs⟩
    · rw [Option.some.injEq, Prod.mk.injEq] at hacc'
      rw [← hacc'.2] at hlt
      exact lt_irrefl _ hlt
    · have hsc : fuseScore input y = fuseScore input o := fuseScore_congr_right input hlo.symm
      rw [hs, hsc] at hlt
      exact lt_irrefl _ hlt

theorem fold_first_min (input : String) :
    ∀ (opts : List String) (acc : Option (String × ℚ)) (y : String) (s : ℚ),
      opts.foldl (fuseStep input) acc = some (y, s) →
      (∀ w sw, acc = some (w, sw) → lowerStr w ≠ lowerStr y) →
      opts.find? (fun opt => lowerStr opt == lowerStr y) = some y := by
  intro opts
  induction opts with
  | nil =>
    intro acc y s h hside
    simp only [List.foldl_nil] at h
    exact absurd rfl (hside y s h)
  | cons o os ih =>
    intro acc y s h hside
    simp only [List.foldl_cons] at h
    by_cases hlo : lowerStr o = lowerStr y
    · have hoy : y = o := by
        rcases hacc : acc with _ | ⟨w0, sw0⟩
        · rw [hacc] at h
          exact fold_from_o input os o y s hlo h
        · rw [hacc] at h
          by_cases hrep : fuseScore input o < sw0
          · rw [show fuseStep input (some (w0, sw0)) o = some (o, fuseScore input o) from by
              simp [fuseStep, hrep]] at h
            exact fold_from_o input os o y s hlo h
          · rw [show fuseStep input (some (w0, sw0)) o = some (w0, sw0) from by
              simp [fuseStep, hrep]] at h
            exfalso
            have hw := hside w0 sw0 hacc
            rcases fold_keeps_or_decreases input os w0 sw0 y s h with heq | hlt
            · rw [Prod.mk.injEq] at heq
              exact hw (by rw [heq.1])
            · rcases fold_out input os _ y s h with hacc' | ⟨hmem, hs⟩
              · rw [Option.some.injEq, Prod.mk.injEq] at hacc'
                rw [← hacc'.2] at hlt
                exact lt_irrefl _ hlt
              · have hsc : fuseScore input y = fuseScore input o :=
                  fuseScore_congr_right input hlo.symm
                have hge : sw0 ≤ fuseScore input o := not_lt.mp hrep
                rw [hs, hsc] at hlt
                exact absurd hlt (not_lt.mpr hge)
      subst hoy
      rw [List.find?_cons_of_pos _ (by simp [hlo])]
    · rw [List.find?_cons_of_neg _ (by simp [hlo])]
      refine ih (fuseStep input acc o) y s h ?_
      intro w sw hacc'
      rcases hacc : acc with _ | ⟨w0, sw0⟩
      · rw [hacc] at hacc'
        simp only [fuseStep, Option.some.injEq, Prod.mk.injEq] at hacc'
        rw [← hacc'.1]
        exact hlo
      · rw [hacc] at hacc'
        by_cases hrep : fuseScore input o < sw0
        · rw [show fuseStep input (some (w0, sw0)) o = some (o, fuseScore input o) from by
            simp [fuseStep, hrep]] at hacc'
          rw [Option.some.injEq, Prod.mk.injEq] at hacc'
          rw [← hacc'.1]
          exact hlo
        · rw [show fuseStep input (some (w0, sw0)) o = some (w0, sw0) from by
            simp [fuseStep, hrep]] at hacc'
          rw [Option.some.injEq, Prod.mk.injEq] at hacc'
          rw [← hacc'.1]
          exact hside w0 sw0 hacc

/-- Claim C6: fuzzyMatch is idempotent for every candidate, vocabulary and
threshold: applying it to its own output returns that output unchanged,
whether the first application hit the vocabulary exactly, fuzzily, or fell
back to the title-cased literal. -/
theorem fuzzyMatch_idempotent (x : String) (V : List String) (t : ℚ) :
    fuzzyMatch (fuzzyMatch x V t) V t = fuzzyMatch x V t := by
  by_cases hx : x = ""
  · subst hx
    rfl
  · rcases hfind : V.find? (fun opt => lowerStr opt == lowerStr x) with _ | y
    · rcases hbest : fuseBest x V with _ | ⟨item, score⟩
      · -- no vocabulary at all: literal fallback
        have hy : fuzzyMatch x V t = capitalizeJs x := by
          unfold fuzzyMatch
          rw [if_neg hx, hfind, hbest]
        rw [hy]
        have hcl : lowerStr (capitalizeJs x) = lowerStr x := lowerStr_capitalizeJs x
        have hcne : capitalizeJs x ≠ "" := capitalizeJs_ne_empty x hx
        unfold fuzzyMatch
        rw [if_neg hcne]
        have hpred : (fun opt => lowerStr opt == lowerStr (capitalizeJs x)) =
            (fun opt => lowerStr opt == lowerStr x) := by
          funext z
          rw [hcl]
        rw [hpred, hfind]
        have hbc : fuseBest (capitalizeJs x) V = fuseBest x V := fuseBest_congr hcl V none
        rw [hbc, hbest]
        exact capitalizeJs_capitalizeJs x
      · by_cases hth : score < t
        · -- fuzzy hit
          have hy : fuzzyMatch x V t = item := by
            unfold fuzzyMatch
            rw [if_neg hx, hfind, hbest]
            simp [hth]
          rw [hy]
          by_cases hitem : item = ""
          · subst hitem
            rfl
          · have hfold : V.foldl (fuseStep x) none = some (item, score) := hbest
            have hfd := fold_first_min x V none item score hfold
              (by intro w sw hw; cases hw)
            unfold fuzzyMatch
            rw [if_neg hitem, hfd]
        · -- best not below threshold: literal fallback
          have hy : fuzzyMatch x V t = capitalizeJs x := by
            unfold fuzzyMatch
            rw [if_neg hx, hfind, hbest]
            simp [hth]
          rw [hy]
          have hcl : lowerStr (capitalizeJs x) = lowerStr x := lowerStr_capitalizeJs x
          have hcne : capitalizeJs x ≠ "" := capitalizeJs_ne_empty x hx
          unfold fuzzyMatch
          rw [if_neg hcne]
          have hpred : (fun opt => lowerStr opt == lowerStr (capitalizeJs x)) =
              (fun opt => lowerStr opt == lowerStr x) := by
            funext z
            rw [hcl]
          rw [hpred, hfind]
          have hbc : fuseBest (capitalizeJs x) V = fuseBest x V := fuseBest_congr hcl V none
          rw [hbc, hbest]
          simp [hth, capitalizeJs_capitalizeJs]
    · -- exact case-insensitive hit
      have hy : fuzzyMatch x V t = y := by
        unfold fuzzyMatch
        rw [if_neg hx, hfind]
      rw [hy]
      have hbeq := List.find?_some hfind
      have hle : lowerStr y = lowerStr x := by simpa using hbeq
      have hyne : y ≠ "" := ne_empty_of_lower_eq hle hx
      unfold fuzzyMatch
      rw [if_neg hyne]
      have hpred : (fun opt => lowerStr opt == lowerStr y) =
          (fun opt => lowerStr opt == lowerStr x) := by
        funext z
        rw [hle]
      rw [hpred, hfind]

end UserMgmt
